import Mathlib

/-!
A shallow embedding of the wiki-path backend server (src/server.js): the
session-presence and shared-path broadcast engine.  JavaScript `Map`s and
objects are modelled as insertion-ordered association lists, JS `Set`s as
duplicate-free lists, and the per-socket closure variables (`currentRoom`,
`userColor`) together with socket.io channel membership as a per-connection
record.  `Math.random()` draws are modelled by a natural-number oracle
carried in each `join-room` event (the chosen index is `rand % length`).
-/

namespace WikiPath

/-- Association-list lookup: first entry whose key matches. -/
def alGet {α : Type} : List (String × α) → String → Option α
  | [], _ => none
  | (k, v) :: rest, key => if k = key then some v else alGet rest key

/-- Association-list update, mirroring JS `Map.set` / object property
assignment: replace in place if the key is present, else append. -/
def alSet {α : Type} : List (String × α) → String → α → List (String × α)
  | [], key, v => [(key, v)]
  | (k, w) :: rest, key, v =>
    if k = key then (key, v) :: rest else (k, w) :: alSet rest key v

/-- Association-list deletion, mirroring JS `Map.delete` / `delete obj[k]`. -/
def alErase {α : Type} : List (String × α) → String → List (String × α)
  | [], _ => []
  | (k, v) :: rest, key =>
    if k = key then alErase rest key else (k, v) :: alErase rest key

/-- The fixed color → instrument table (`colorInstrumentMap` in server.js),
in source order. -/
def colorInstrumentMap : List (String × String) :=
  [("#970302", "AMSynth"),
   ("#E679A6", "DuoSynth"),
   ("#EE8019", "FMSynth"),
   ("#F0BC00", "MembraneSynth"),
   ("#5748B5", "PolySynth"),
   ("#305D70", "MonoSynth"),
   ("#0E65C0", "NoiseSynth"),
   ("#049DFF", "PluckSynth"),
   ("#E9E7C4", "PolySynth"),
   ("#308557", "Synth"),
   ("#71D1B3", "FMSynth")]

/-- `colorPalette = Object.keys(colorInstrumentMap)`. -/
def colorPalette : List String := colorInstrumentMap.map Prod.fst

/-- A live participant record, one per connection per room
(`rooms[roomId].users[socketId]` in server.js). -/
structure Presence where
  id : String
  color : String
  instrument : String
  position : Int
  trail : List Int
deriving DecidableEq

/-- One durable history record (`historicalPaths[roomId][userId]`); the JS
object may or may not have a `selectedWords` field, hence the `Option`. -/
structure HistoryRecord where
  color : String
  path : List Int
  selectedWords : Option (List String)
deriving DecidableEq

/-- A room record (`rooms.get(roomId)` is `{ users: {...} }`). -/
structure Room where
  users : List (String × Presence)
deriving DecidableEq

/-- Per-connection state: the closure variables `currentRoom` and
`userColor` of the `io.on('connection')` handler, plus the socket.io
channels the socket has joined via `socket.join` / `socket.leave`. -/
structure ConnState where
  currentRoom : Option String
  userColor : Option String
  channels : List String
deriving DecidableEq

/-- The whole server state: connected sockets and the three module-level
maps `rooms`, `roomColors`, `historicalPaths`. -/
structure SState where
  conns : List (String × ConnState)
  rooms : List (String × Room)
  roomColors : List (String × List String)
  historicalPaths : List (String × List (String × HistoryRecord))
deriving DecidableEq

/-- The empty server state at process start. -/
def initState : SState := ⟨[], [], [], []⟩

/-- Inbound events.  `rand` in `joinRoom` resolves the `Math.random()`
draw inside `getAvailableColor` (index `rand % length` of the list drawn
from). -/
inductive Event where
  | connect (sid : String)
  | joinRoom (sid : String) (roomId : String) (rand : Nat)
  | move (sid : String) (wordIndex line positionInLine : Int)
  | selectEmit (sid : String) (wordIndex line positionInLine : Int) (text : String)
  | savePath (sid : String) (path : List Int)
  | saveSelectedWords (sid : String) (words : List String)
  | disconnect (sid : String)
deriving DecidableEq

/-- Outbound events, each tagged with the receiving connection id. -/
inductive OutEvent where
  | userColor (target : String) (color : String)
  | userInstrument (target : String) (instrument : String)
  | roomUsers (target : String) (users : List (String × Presence))
  | historicalPaths (target : String) (paths : List (String × String × List Int))
  | savedSelectedPaths (target : String) (entries : List (String × String × List String))
  | userJoined (target : String) (p : Presence)
  | userMoved (target : String) (id color instrument : String)
      (position line positionInLine : Int)
  | selectReceive (target : String) (id color : String)
      (position line positionInLine : Int) (text : String)
  | userLeft (target : String) (id : String)
deriving DecidableEq

/-- The connection ids `socket.to(roomId).emit(...)` delivers to: every
socket other than the sender whose joined channels include `roomId`. -/
def broadcastTargets (conns : List (String × ConnState)) (sender roomId : String) :
    List String :=
  (conns.filter (fun p => !(p.1 == sender) && p.2.channels.contains roomId)).map Prod.fst

/-- `getAvailableColor(roomId)` from server.js: create the room's used-color
set if absent; pick a random unused palette color and mark it used, or, if
all are used, pick a random color from the whole palette (without marking).
Returns the updated `roomColors` map and the chosen color. -/
def getAvailableColor (roomColors : List (String × List String)) (roomId : String)
    (rand : Nat) : List (String × List String) × String :=
  let rc := if (alGet roomColors roomId).isSome then roomColors
            else alSet roomColors roomId []
  let usedColors := (alGet rc roomId).getD []
  let availableColors := colorPalette.filter (fun c => !(usedColors.contains c))
  if h : 0 < availableColors.length then
    let randomColor := availableColors.get ⟨rand % availableColors.length, Nat.mod_lt _ h⟩
    (alSet rc roomId (usedColors ++ [randomColor]), randomColor)
  else
    (rc, colorPalette.get ⟨rand % colorPalette.length, Nat.mod_lt _ (by decide)⟩)

/-- `releaseColor(roomId, color)` from server.js. -/
def releaseColor (roomColors : List (String × List String)) (roomId color : String) :
    List (String × List String) :=
  match alGet roomColors roomId with
  | some used => alSet roomColors roomId (used.filter (fun c => !(c == color)))
  | none => roomColors

/-- `removeUserFromRoom(roomId, socketId)` from server.js: delete the
Presence; if the room is now empty, delete the room and its used-color set. -/
def removeUserFromRoom (rooms : List (String × Room))
    (roomColors : List (String × List String)) (roomId socketId : String) :
    List (String × Room) × List (String × List String) :=
  match alGet rooms roomId with
  | none => (rooms, roomColors)
  | some room =>
    let users := alErase room.users socketId
    if users.isEmpty then
      (alErase rooms roomId, alErase roomColors roomId)
    else
      (alSet rooms roomId ⟨users⟩, roomColors)

/-- The trail update in the `move` handler: push the new position, then
shift the oldest entry off when the length exceeds 50. -/
def trailStep (t : List Int) (w : Int) : List Int :=
  if 50 < (t ++ [w]).length then (t ++ [w]).drop 1 else t ++ [w]

/-- A new socket connects: fresh closure state, no room, no color. -/
def handleConnect (s : SState) (sid : String) : SState × List OutEvent :=
  ({ s with conns := alSet s.conns sid ⟨none, none, []⟩ }, [])

/-- The `join-room` handler from server.js. -/
def handleJoinRoom (s : SState) (sid roomId : String) (rand : Nat) :
    SState × List OutEvent :=
  match alGet s.conns sid with
  | none => (s, [])
  | some conn =>
    let conn1 := match conn.currentRoom with
      | some prev => { conn with channels := conn.channels.filter (fun c => !(c == prev)) }
      | none => conn
    let roomsAfterLeave := match conn.currentRoom with
      | some prev => removeUserFromRoom s.rooms s.roomColors prev sid
      | none => (s.rooms, s.roomColors)
    let rooms1 := roomsAfterLeave.1
    let roomColors1 := roomsAfterLeave.2
    let conn2 := { conn1 with
      currentRoom := some roomId,
      channels := if conn1.channels.contains roomId then conn1.channels
                  else conn1.channels ++ [roomId] }
    let rooms2 := if (alGet rooms1 roomId).isSome then rooms1
                  else alSet rooms1 roomId ⟨[]⟩
    let colorResult := getAvailableColor roomColors1 roomId rand
    let roomColors2 := colorResult.1
    let userColor := colorResult.2
    let userInstrument := (alGet colorInstrumentMap userColor).getD ""
    let conn3 := { conn2 with userColor := some userColor }
    let room := (alGet rooms2 roomId).getD ⟨[]⟩
    let presence : Presence := ⟨sid, userColor, userInstrument, 0, []⟩
    let users2 := alSet room.users sid presence
    let rooms3 := alSet rooms2 roomId ⟨users2⟩
    let conns1 := alSet s.conns sid conn3
    let pathsArray := match alGet s.historicalPaths roomId with
      | some roomPaths => roomPaths.map (fun p => (p.1, p.2.color, p.2.path))
      | none => []
    let selectedPathsArray := match alGet s.historicalPaths roomId with
      | some roomPaths =>
        (roomPaths.filter (fun p => !((p.2.selectedWords.getD []).length == 0))).map
          (fun p => (p.1, p.2.color, p.2.selectedWords.getD []))
      | none => []
    ({ conns := conns1,
       rooms := rooms3,
       roomColors := roomColors2,
       historicalPaths := s.historicalPaths },
     [OutEvent.userColor sid userColor,
      OutEvent.userInstrument sid userInstrument,
      OutEvent.roomUsers sid users2,
      OutEvent.historicalPaths sid pathsArray,
      OutEvent.savedSelectedPaths sid selectedPathsArray]
     ++ (broadcastTargets conns1 sid roomId).map
          (fun t => OutEvent.userJoined t presence))

/-- The `move` handler from server.js. -/
def handleMove (s : SState) (sid : String) (wordIndex line positionInLine : Int) :
    SState × List OutEvent :=
  match alGet s.conns sid with
  | none => (s, [])
  | some conn =>
    match conn.currentRoom with
    | none => (s, [])
    | some currentRoom =>
      match alGet s.rooms currentRoom with
      | none => (s, [])
      | some room =>
        match alGet room.users sid with
        | none => (s, [])
        | some user =>
          let user2 := { user with
            position := wordIndex,
            trail := trailStep user.trail wordIndex }
          ({ s with rooms := alSet s.rooms currentRoom ⟨alSet room.users sid user2⟩ },
           (broadcastTargets s.conns sid currentRoom).map (fun t =>
             OutEvent.userMoved t sid user.color user.instrument wordIndex line
               positionInLine))

/-- The `select-emit` handler from server.js: broadcast only, no mutation. -/
def handleSelectEmit (s : SState) (sid : String)
    (wordIndex line positionInLine : Int) (text : String) : SState × List OutEvent :=
  match alGet s.conns sid with
  | none => (s, [])
  | some conn =>
    match conn.currentRoom with
    | none => (s, [])
    | some currentRoom =>
      match alGet s.rooms currentRoom with
      | none => (s, [])
      | some room =>
        match alGet room.users sid with
        | none => (s, [])
        | some user =>
          (s, (broadcastTargets s.conns sid currentRoom).map (fun t =>
            OutEvent.selectReceive t sid user.color wordIndex line positionInLine text))

/-- The `save-path` handler from server.js: upsert `{color, path}` (the whole
record is replaced, any `selectedWords` field is dropped). -/
def handleSavePath (s : SState) (sid : String) (path : List Int) :
    SState × List OutEvent :=
  match alGet s.conns sid with
  | none => (s, [])
  | some conn =>
    match conn.currentRoom with
    | none => (s, [])
    | some currentRoom =>
      match alGet s.rooms currentRoom with
      | none => (s, [])
      | some room =>
        match alGet room.users sid with
        | none => (s, [])
        | some user =>
          let roomPaths := (alGet s.historicalPaths currentRoom).getD []
          let roomPaths2 := alSet roomPaths sid ⟨user.color, path, none⟩
          ({ s with historicalPaths := alSet s.historicalPaths currentRoom roomPaths2 },
           [])

/-- The `save-selected-words` handler from server.js: create the record with
an empty path if absent, then set only its `selectedWords` field. -/
def handleSaveSelectedWords (s : SState) (sid : String) (words : List String) :
    SState × List OutEvent :=
  match alGet s.conns sid with
  | none => (s, [])
  | some conn =>
    match conn.currentRoom with
    | none => (s, [])
    | some currentRoom =>
      match alGet s.rooms currentRoom with
      | none => (s, [])
      | some room =>
        match alGet room.users sid with
        | none => (s, [])
        | some user =>
          let roomPaths := (alGet s.historicalPaths currentRoom).getD []
          let rec0 := match alGet roomPaths sid with
            | some r0 => r0
            | none => (⟨user.color, [], none⟩ : HistoryRecord)
          let roomPaths2 := alSet roomPaths sid { rec0 with selectedWords := some words }
          ({ s with historicalPaths := alSet s.historicalPaths currentRoom roomPaths2 },
           [])

/-- The `disconnect` handler from server.js: remove the Presence, notify the
room, release the color, drop the connection. -/
def handleDisconnect (s : SState) (sid : String) : SState × List OutEvent :=
  match alGet s.conns sid with
  | none => (s, [])
  | some conn =>
    match conn.currentRoom with
    | none => ({ s with conns := alErase s.conns sid }, [])
    | some currentRoom =>
      let removed := removeUserFromRoom s.rooms s.roomColors currentRoom sid
      let roomColors2 := match conn.userColor with
        | some c => releaseColor removed.2 currentRoom c
        | none => removed.2
      ({ s with
          conns := alErase s.conns sid,
          rooms := removed.1,
          roomColors := roomColors2 },
       (broadcastTargets s.conns sid currentRoom).map (fun t => OutEvent.userLeft t sid))

/-- Dispatch one inbound event, atomically. -/
def step (s : SState) : Event → SState × List OutEvent
  | .connect sid => handleConnect s sid
  | .joinRoom sid roomId rand => handleJoinRoom s sid roomId rand
  | .move sid w l p => handleMove s sid w l p
  | .selectEmit sid w l p t => handleSelectEmit s sid w l p t
  | .savePath sid path => handleSavePath s sid path
  | .saveSelectedWords sid ws => handleSaveSelectedWords s sid ws
  | .disconnect sid => handleDisconnect s sid

/-- Run a sequence of events, collecting all emissions in order. -/
def run : SState → List Event → SState × List OutEvent
  | s, [] => (s, [])
  | s, e :: es =>
    let r1 := step s e
    let r2 := run r1.1 es
    (r2.1, r1.2 ++ r2.2)

/-- Observer: the color of a connection's Presence in a room, if any. -/
def userColorIn (s : SState) (roomId sid : String) : Option String :=
  ((alGet s.rooms roomId).bind (fun room => alGet room.users sid)).map Presence.color

/-- Observer: a room's live participant count (0 if the room is absent). -/
def roomCount (s : SState) (roomId : String) : Nat :=
  ((alGet s.rooms roomId).map (fun room => room.users.length)).getD 0

/-- Observer: a room's used-color set (empty if absent). -/
def usedColors (s : SState) (roomId : String) : List String :=
  (alGet s.roomColors roomId).getD []

/-- Recognizer for `user-left` emissions. -/
def isUserLeft : OutEvent → Bool
  | OutEvent.userLeft _ _ => true
  | _ => false

/-- The receiving connection id of an outbound event. -/
def outTarget : OutEvent → String
  | OutEvent.userColor t _ => t
  | OutEvent.userInstrument t _ => t
  | OutEvent.roomUsers t _ => t
  | OutEvent.historicalPaths t _ => t
  | OutEvent.savedSelectedPaths t _ => t
  | OutEvent.userJoined t _ => t
  | OutEvent.userMoved t _ _ _ _ _ _ => t
  | OutEvent.selectReceive t _ _ _ _ _ _ => t
  | OutEvent.userLeft t _ => t

/-- A sequence of `move` events from one connection, one per
(wordIndex, line, positionInLine) triple. -/
def moveEvents (sid : String) (moves : List (Int × Int × Int)) : List Event :=
  moves.map (fun m => Event.move sid m.1 m.2.1 m.2.2)

/-- Trace for the used-color leak: c0 stays in room A while c1 re-joins A
ten times (each re-join leaks c1's previous color into A's used set,
exhausting the 11-color palette), then c2 joins A. -/
def traceC1 : List Event :=
  [Event.connect "c0", Event.joinRoom "c0" "A" 0, Event.connect "c1"]
  ++ (List.replicate 10 (Event.joinRoom "c1" "A" 0))
  ++ [Event.connect "c2", Event.joinRoom "c2" "A" 0]

/-- Trace prefix: c0 and c1 join room A. -/
def traceAB : List Event :=
  [Event.connect "c0", Event.joinRoom "c0" "A" 0,
   Event.connect "c1", Event.joinRoom "c1" "A" 0]

/-! ### Association-list lemmas -/

theorem alGet_alSet_self {α : Type} (m : List (String × α)) (k : String) (v : α) :
    alGet (alSet m k v) k = some v := by
  induction m with
  | nil => simp [alGet, alSet]
  | cons hd tl ih =>
    obtain ⟨k0, v0⟩ := hd
    by_cases h : k0 = k
    · simp [alGet, alSet, h]
    · simp [alGet, alSet, h, ih]

theorem alGet_alSet_ne {α : Type} (m : List (String × α)) (k k2 : String) (v : α)
    (h : k ≠ k2) : alGet (alSet m k v) k2 = alGet m k2 := by
  induction m with
  | nil => simp [alGet, alSet, h]
  | cons hd tl ih =>
    obtain ⟨k0, v0⟩ := hd
    by_cases h0 : k0 = k
    · subst h0
      simp [alGet, alSet, h]
    · by_cases h2 : k0 = k2
      · simp [alGet, alSet, h0, h2, Ne.symm h]
      · simp [alGet, alSet, h0, h2, ih]

theorem alGet_alErase_self {α : Type} (m : List (String × α)) (k : String) :
    alGet (alErase m k) k = none := by
  induction m with
  | nil => simp [alGet, alErase]
  | cons hd tl ih =>
    obtain ⟨k0, v0⟩ := hd
    by_cases h : k0 = k
    · simp [alErase, h, ih]
    · simp [alGet, alErase, h, ih]

theorem alGet_alErase_ne {α : Type} (m : List (String × α)) (k k2 : String)
    (h : k ≠ k2) : alGet (alErase m k) k2 = alGet m k2 := by
  induction m with
  | nil => simp [alErase]
  | cons hd tl ih =>
    obtain ⟨k0, v0⟩ := hd
    by_cases h0 : k0 = k
    · subst h0
      simp [alGet, alErase, h, ih]
    · by_cases h2 : k0 = k2
      · simp [alGet, alErase, h0, h2, Ne.symm h]
      · simp [alGet, alErase, h0, h2, ih]

theorem alSet_ne_nil {α : Type} (m : List (String × α)) (k : String) (v : α) :
    alSet m k v ≠ [] := by
  cases m with
  | nil => simp [alSet]
  | cons hd tl =>
    obtain ⟨k0, v0⟩ := hd
    by_cases h : k0 = k
    · simp [alSet, h]
    · simp [alSet, h]

theorem mem_alSet_self {α : Type} (m : List (String × α)) (k : String) (v : α) :
    (k, v) ∈ alSet m k v := by
  induction m with
  | nil => simp [alSet]
  | cons hd tl ih =>
    obtain ⟨k0, v0⟩ := hd
    by_cases h : k0 = k
    · simp [alSet, h]
    · simp [alSet, h]
      right
      exact ih

theorem mem_alSet_cases {α : Type} {m : List (String × α)} {k : String} {v : α}
    {p : String × α} (hp : p ∈ alSet m k v) : p ∈ m ∨ p = (k, v) := by
  induction m with
  | nil =>
    simp [alSet] at hp
    right
    exact hp
  | cons hd tl ih =>
    obtain ⟨k0, v0⟩ := hd
    by_cases h : k0 = k
    · simp [alSet, h] at hp
      rcases hp with hp | hp
      · right
        simp [hp]
      · left
        simp [hp]
    · simp [alSet, h] at hp
      rcases hp with hp | hp
      · left
        simp [hp]
      · rcases ih hp with h2 | h2
        · left
          simp [h2]
        · right
          exact h2

theorem alErase_sublist {α : Type} (m : List (String × α)) (k : String) :
    (alErase m k).Sublist m := by
  induction m with
  | nil => simp [alErase]
  | cons hd tl ih =>
    obtain ⟨k0, v0⟩ := hd
    by_cases h : k0 = k
    · rw [show alErase ((k0, v0) :: tl) k = alErase tl k from by simp [alErase, h]]
      exact ih.cons _
    · rw [show alErase ((k0, v0) :: tl) k = (k0, v0) :: alErase tl k from by
        simp [alErase, h]]
      exact ih.cons₂ _

theorem mem_alErase {α : Type} {m : List (String × α)} {k : String}
    {p : String × α} (hp : p ∈ alErase m k) : p ∈ m :=
  (alErase_sublist m k).mem hp

theorem alGet_mem {α : Type} {m : List (String × α)} {k : String} {v : α}
    (h : alGet m k = some v) : (k, v) ∈ m := by
  induction m with
  | nil => simp [alGet] at h
  | cons hd tl ih =>
    obtain ⟨k0, v0⟩ := hd
    by_cases h0 : k0 = k
    · simp [alGet, h0] at h
      simp [h0, h]
    · simp [alGet, h0] at h
      simp [ih h]

theorem isSome_alGet_iff_mem_keys {α : Type} (m : List (String × α)) (k : String) :
    (alGet m k).isSome ↔ k ∈ m.map Prod.fst := by
  induction m with
  | nil => simp [alGet]
  | cons hd tl ih =>
    obtain ⟨k0, v0⟩ := hd
    by_cases h0 : k0 = k
    · simp [alGet, h0]
    · simp [alGet, h0, ih]
      intro h
      exact absurd h.symm h0

theorem mem_keys_alSet {α : Type} {m : List (String × α)} {k key : String} {v : α}
    (h : k ∈ (alSet m key v).map Prod.fst) : k ∈ m.map Prod.fst ∨ k = key := by
  rcases List.mem_map.mp h with ⟨p, hp, hpk⟩
  rcases mem_alSet_cases hp with h1 | h1
  · left
    exact hpk ▸ List.mem_map_of_mem Prod.fst h1
  · right
    rw [← hpk, h1]

theorem keysNodup_alSet {α : Type} {m : List (String × α)} (k : String) (v : α)
    (h : (m.map Prod.fst).Nodup) : ((alSet m k v).map Prod.fst).Nodup := by
  induction m with
  | nil => simp [alSet]
  | cons hd tl ih =>
    obtain ⟨k0, v0⟩ := hd
    rw [List.map_cons, List.nodup_cons] at h
    obtain ⟨hk0, htl⟩ := h
    by_cases h0 : k0 = k
    · subst h0
      rw [show alSet ((k0, v0) :: tl) k0 v = (k0, v) :: tl from by simp [alSet]]
      rw [List.map_cons, List.nodup_cons]
      exact ⟨hk0, htl⟩
    · rw [show alSet ((k0, v0) :: tl) k v = (k0, v0) :: alSet tl k v from by
        simp [alSet, h0]]
      rw [List.map_cons, List.nodup_cons]
      refine ⟨?_, ih htl⟩
      intro hk
      rcases mem_keys_alSet hk with h2 | h2
      · exact hk0 h2
      · exact h0 h2

theorem keysNodup_alErase {α : Type} {m : List (String × α)} (k : String)
    (h : (m.map Prod.fst).Nodup) : ((alErase m k).map Prod.fst).Nodup :=
  h.sublist ((alErase_sublist m k).map Prod.fst)

theorem alGet_of_mem_keysNodup {α : Type} {m : List (String × α)} {k : String} {v : α}
    (hnd : (m.map Prod.fst).Nodup) (h : (k, v) ∈ m) : alGet m k = some v := by
  induction m with
  | nil => simp at h
  | cons hd tl ih =>
    obtain ⟨k0, v0⟩ := hd
    rw [List.map_cons, List.nodup_cons] at hnd
    rcases List.mem_cons.mp h with h1 | h1
    · have e1 : k = k0 := congrArg Prod.fst h1
      have e2 : v = v0 := congrArg Prod.snd h1
      subst e1
      subst e2
      simp [alGet]
    · have hk0 : ¬k0 = k := by
        intro he
        subst he
        exact hnd.1 (List.mem_map.mpr ⟨(k0, v), h1, rfl⟩)
      rw [show alGet ((k0, v0) :: tl) k = alGet tl k from by simp [alGet, hk0]]
      exact ih hnd.2 h1

theorem alGet_alSet_cases {α : Type} {m : List (String × α)} {k r : String} {v u : α}
    (h : alGet (alSet m k v) r = some u) :
    (r = k ∧ u = v) ∨ (r ≠ k ∧ alGet m r = some u) := by
  by_cases he : r = k
  · subst he
    rw [alGet_alSet_self] at h
    exact Or.inl ⟨rfl, (Option.some.injEq .. ▸ h).symm⟩
  · rw [alGet_alSet_ne _ _ _ _ (Ne.symm he)] at h
    exact Or.inr ⟨he, h⟩

theorem alGet_alErase_cases {α : Type} {m : List (String × α)} {k r : String} {u : α}
    (h : alGet (alErase m k) r = some u) : r ≠ k ∧ alGet m r = some u := by
  by_cases he : r = k
  · subst he
    rw [alGet_alErase_self] at h
    exact absurd h (by simp)
  · rw [alGet_alErase_ne _ _ _ (Ne.symm he)] at h
    exact ⟨he, h⟩

theorem isSome_alGet_alSet {α : Type} (m : List (String × α)) (k r : String) (v : α)
    (h : (alGet m r).isSome) : (alGet (alSet m k v) r).isSome := by
  by_cases he : r = k
  · subst he
    rw [alGet_alSet_self]
    rfl
  · rw [alGet_alSet_ne _ _ _ _ (Ne.symm he)]
    exact h

/-! ### Trail lemmas -/

theorem trailStep_length_le (t : List Int) (w : Int) (h : t.length ≤ 50) :
    (trailStep t w).length ≤ 50 := by
  unfold trailStep
  split
  · simpa using h
  · rename_i h1
    simp at h1 ⊢
    omega

theorem trailStep_eq_drop (t : List Int) (w : Int) (h : t.length ≤ 50) :
    trailStep t w = (t ++ [w]).drop (t.length + 1 - 50) := by
  unfold trailStep
  split
  · rename_i h1
    simp at h1
    rw [show t.length + 1 - 50 = 1 from by omega]
  · rename_i h1
    simp at h1
    rw [show t.length + 1 - 50 = 0 from by omega]
    simp

theorem drop_append_drop {α : Type} (l ws : List α) (d k : Nat) (hd : d ≤ l.length) :
    (l.drop d ++ ws).drop k = (l ++ ws).drop (d + k) := by
  rw [List.drop_append_eq_append_drop, List.drop_append_eq_append_drop, List.drop_drop,
    List.length_drop, show k - (l.length - d) = d + k - l.length from by omega]

theorem foldl_trailStep (ws : List Int) : ∀ t : List Int, t.length ≤ 50 →
    List.foldl trailStep t ws = (t ++ ws).drop (t.length + ws.length - 50) := by
  induction ws with
  | nil =>
    intro t ht
    simp [Nat.sub_eq_zero_of_le ht]
  | cons w ws ih =>
    intro t ht
    rw [List.foldl_cons, ih _ (trailStep_length_le t w ht), trailStep_eq_drop t w ht]
    rw [List.length_drop]
    rw [drop_append_drop _ _ _ _ (by simp; omega)]
    rw [show t ++ w :: ws = (t ++ [w]) ++ ws from by simp]
    congr 1
    simp
    omega

/-! ### Reachable-state invariant -/

/-- The inductive invariant of reachable server states: every registered
room is non-empty, used-color bookkeeping exists only for registered rooms,
every trail is bounded by 50, every socket's channel set mirrors its
`currentRoom`, and connection ids are unique. -/
structure Inv (s : SState) : Prop where
  roomsOK : ∀ r room, alGet s.rooms r = some room → room.users ≠ []
  colorsOK : ∀ r, (alGet s.roomColors r).isSome → (alGet s.rooms r).isSome
  trailsOK : ∀ r room, alGet s.rooms r = some room →
    ∀ q ∈ room.users, q.2.trail.length ≤ 50
  chanOK : ∀ sid c, alGet s.conns sid = some c →
    c.channels = (match c.currentRoom with
      | some r => [r]
      | none => ([] : List String))
  nodupOK : (s.conns.map Prod.fst).Nodup

theorem isSome_alGet_alErase_cases {α : Type} {m : List (String × α)} {k r : String}
    (h : (alGet (alErase m k) r).isSome) : r ≠ k ∧ (alGet m r).isSome := by
  rcases Option.isSome_iff_exists.mp h with ⟨u, hu⟩
  obtain ⟨hne, h2⟩ := alGet_alErase_cases hu
  exact ⟨hne, by rw [h2]; rfl⟩

theorem isSome_alGet_releaseColor {colors : List (String × List String)}
    {roomId color r : String}
    (h : (alGet (releaseColor colors roomId color) r).isSome) :
    (alGet colors r).isSome := by
  unfold releaseColor at h
  cases hl : alGet colors roomId with
  | none =>
    simp only [hl] at h
    exact h
  | some used =>
    simp only [hl] at h
    by_cases he : r = roomId
    · subst he
      rw [hl]
      rfl
    · rw [alGet_alSet_ne _ _ _ _ (Ne.symm he)] at h
      exact h

theorem alGet_getAvailableColor_ne (colors : List (String × List String))
    (roomId : String) (rand : Nat) (r : String) (h : r ≠ roomId) :
    alGet (getAvailableColor colors roomId rand).1 r = alGet colors r := by
  simp only [getAvailableColor]
  split
  · split
    · dsimp only
      rw [alGet_alSet_ne _ _ _ _ (Ne.symm h)]
    · rfl
  · split
    · dsimp only
      rw [alGet_alSet_ne _ _ _ _ (Ne.symm h), alGet_alSet_ne _ _ _ _ (Ne.symm h)]
    · dsimp only
      rw [alGet_alSet_ne _ _ _ _ (Ne.symm h)]

theorem removeUserFromRoom_preserves (rooms : List (String × Room))
    (colors : List (String × List String)) (roomId socketId : String)
    (h1 : ∀ r room, alGet rooms r = some room → room.users ≠ [])
    (h2 : ∀ r, (alGet colors r).isSome → (alGet rooms r).isSome)
    (h3 : ∀ r room, alGet rooms r = some room → ∀ q ∈ room.users,
      q.2.trail.length ≤ 50) :
    (∀ r room, alGet (removeUserFromRoom rooms colors roomId socketId).1 r = some room →
      room.users ≠ [])
    ∧ (∀ r, (alGet (removeUserFromRoom rooms colors roomId socketId).2 r).isSome →
        (alGet (removeUserFromRoom rooms colors roomId socketId).1 r).isSome)
    ∧ (∀ r room, alGet (removeUserFromRoom rooms colors roomId socketId).1 r = some room →
        ∀ q ∈ room.users, q.2.trail.length ≤ 50) := by
  unfold removeUserFromRoom
  cases hlook : alGet rooms roomId with
  | none =>
    simp only [hlook]
    exact ⟨h1, h2, h3⟩
  | some room0 =>
    simp only [hlook]
    by_cases he : (alErase room0.users socketId).isEmpty
    · simp only [he, if_true]
      refine ⟨?_, ?_, ?_⟩
      · intro r room h
        exact h1 r room (alGet_alErase_cases h).2
      · intro r h
        obtain ⟨hne, hs⟩ := isSome_alGet_alErase_cases h
        rw [alGet_alErase_ne _ _ _ (Ne.symm hne)]
        exact h2 r hs
      · intro r room h q hq
        exact h3 r room (alGet_alErase_cases h).2 q hq
    · simp only [he, if_false]
      refine ⟨?_, ?_, ?_⟩
      · intro r room h
        rcases alGet_alSet_cases h with ⟨heq, hv⟩ | ⟨hne, h⟩
        · rw [hv]
          simp only [List.isEmpty_iff] at he
          simpa using he
        · exact h1 r room h
      · intro r h
        exact isSome_alGet_alSet _ _ _ _ (h2 r h)
      · intro r room h q hq
        rcases alGet_alSet_cases h with ⟨heq, hv⟩ | ⟨hne, h⟩
        · rw [hv] at hq
          exact h3 roomId room0 hlook q (mem_alErase hq)
        · exact h3 r room h q hq

theorem inv_initState : Inv initState := by
  constructor
  · intro r room h
    simp [initState, alGet] at h
  · intro r h
    simp [initState, alGet] at h
  · intro r room h
    simp [initState, alGet] at h
  · intro sid c h
    simp [initState, alGet] at h
  · simp [initState]

theorem inv_handleConnect (s : SState) (sid : String) (h : Inv s) :
    Inv (handleConnect s sid).1 := by
  obtain ⟨h1, h2, h3, h4, h5⟩ := h
  refine ⟨h1, h2, h3, ?_, keysNodup_alSet _ _ h5⟩
  intro t c htc
  rcases alGet_alSet_cases htc with ⟨heq, hv⟩ | ⟨hne, htc⟩
  · rw [hv]
  · exact h4 t c htc

theorem handleSelectEmit_state (s : SState) (sid : String)
    (w l p : Int) (txt : String) : (handleSelectEmit s sid w l p txt).1 = s := by
  unfold handleSelectEmit
  cases alGet s.conns sid with
  | none => rfl
  | some conn =>
    dsimp only
    cases conn.currentRoom with
    | none => rfl
    | some r =>
      dsimp only
      cases alGet s.rooms r with
      | none => rfl
      | some room =>
        dsimp only
        cases alGet room.users sid with
        | none => rfl
        | some user => rfl

theorem inv_of_paths_update (s : SState)
    (hp : List (String × List (String × HistoryRecord))) (h : Inv s) :
    Inv { s with historicalPaths := hp } := by
  obtain ⟨h1, h2, h3, h4, h5⟩ := h
  exact ⟨h1, h2, h3, h4, h5⟩

theorem handleSavePath_state (s : SState) (sid : String) (path : List Int) :
    (handleSavePath s sid path).1 = s
    ∨ ∃ hp, (handleSavePath s sid path).1 = { s with historicalPaths := hp } := by
  unfold handleSavePath
  cases alGet s.conns sid with
  | none => exact Or.inl rfl
  | some conn =>
    dsimp only
    cases conn.currentRoom with
    | none => exact Or.inl rfl
    | some r =>
      dsimp only
      cases alGet s.rooms r with
      | none => exact Or.inl rfl
      | some room =>
        dsimp only
        cases alGet room.users sid with
        | none => exact Or.inl rfl
        | some user => exact Or.inr ⟨_, rfl⟩

theorem handleSaveSelectedWords_state (s : SState) (sid : String) (words : List String) :
    (handleSaveSelectedWords s sid words).1 = s
    ∨ ∃ hp, (handleSaveSelectedWords s sid words).1 = { s with historicalPaths := hp } := by
  unfold handleSaveSelectedWords
  cases alGet s.conns sid with
  | none => exact Or.inl rfl
  | some conn =>
    dsimp only
    cases conn.currentRoom with
    | none => exact Or.inl rfl
    | some r =>
      dsimp only
      cases alGet s.rooms r with
      | none => exact Or.inl rfl
      | some room =>
        dsimp only
        cases alGet room.users sid with
        | none => exact Or.inl rfl
        | some user => exact Or.inr ⟨_, rfl⟩

theorem inv_handleMove (s : SState) (sid : String) (w l p : Int) (h : Inv s) :
    Inv (handleMove s sid w l p).1 := by
  obtain ⟨h1, h2, h3, h4, h5⟩ := h
  unfold handleMove
  cases hc : alGet s.conns sid with
  | none => exact ⟨h1, h2, h3, h4, h5⟩
  | some conn =>
    dsimp only
    cases hcr : conn.currentRoom with
    | none => exact ⟨h1, h2, h3, h4, h5⟩
    | some r =>
      dsimp only
      cases hroom : alGet s.rooms r with
      | none => exact ⟨h1, h2, h3, h4, h5⟩
      | some room =>
        dsimp only
        cases huser : alGet room.users sid with
        | none => exact ⟨h1, h2, h3, h4, h5⟩
        | some user =>
          dsimp only
          refine ⟨?_, ?_, ?_, h4, h5⟩
          · intro r2 room2 hr2
            rcases alGet_alSet_cases hr2 with ⟨heq, hv⟩ | ⟨hne, hr2⟩
            · rw [hv]
              exact alSet_ne_nil _ _ _
            · exact h1 r2 room2 hr2
          · intro r2 hs
            exact isSome_alGet_alSet _ _ _ _ (h2 r2 hs)
          · intro r2 room2 hr2 q hq
            rcases alGet_alSet_cases hr2 with ⟨heq, hv⟩ | ⟨hne, hr2⟩
            · rw [hv] at hq
              rcases mem_alSet_cases hq with hq | hq
              · exact h3 r room hroom q hq
              · rw [hq]
                exact trailStep_length_le _ _
                  (h3 r room hroom (sid, user) (alGet_mem huser))
            · exact h3 r2 room2 hr2 q hq

theorem inv_handleDisconnect (s : SState) (sid : String) (h : Inv s) :
    Inv (handleDisconnect s sid).1 := by
  obtain ⟨h1, h2, h3, h4, h5⟩ := h
  unfold handleDisconnect
  cases hc : alGet s.conns sid with
  | none => exact ⟨h1, h2, h3, h4, h5⟩
  | some conn =>
    dsimp only
    cases hcr : conn.currentRoom with
    | none =>
      refine ⟨h1, h2, h3, ?_, keysNodup_alErase _ h5⟩
      intro t c htc
      exact h4 t c (alGet_alErase_cases htc).2
    | some r =>
      dsimp only
      obtain ⟨g1, g2, g3⟩ :=
        removeUserFromRoom_preserves s.rooms s.roomColors r sid h1 h2 h3
      cases hcol : conn.userColor with
      | none =>
        refine ⟨g1, g2, g3, ?_, keysNodup_alErase _ h5⟩
        intro t c htc
        exact h4 t c (alGet_alErase_cases htc).2
      | some col =>
        dsimp only
        refine ⟨g1, ?_, g3, ?_, keysNodup_alErase _ h5⟩
        · intro r2 hs
          exact g2 r2 (isSome_alGet_releaseColor hs)
        · intro t c htc
          exact h4 t c (alGet_alErase_cases htc).2

theorem inv_joinRoom_core (conns : List (String × ConnState))
    (rooms : List (String × Room)) (colors : List (String × List String))
    (hp : List (String × List (String × HistoryRecord)))
    (sid roomId : String) (rand : Nat) (conn1 : ConnState)
    (g1 : ∀ r room, alGet rooms r = some room → room.users ≠ [])
    (g2 : ∀ r, (alGet colors r).isSome → (alGet rooms r).isSome)
    (g3 : ∀ r room, alGet rooms r = some room → ∀ q ∈ room.users,
      q.2.trail.length ≤ 50)
    (h4 : ∀ t c, alGet conns t = some c → c.channels = (match c.currentRoom with
      | some r => [r]
      | none => ([] : List String)))
    (h5 : (conns.map Prod.fst).Nodup)
    (hchan1 : conn1.channels = []) (pcolor pinstr : String) :
    Inv { conns := alSet conns sid { conn1 with
            currentRoom := some roomId,
            userColor := some pcolor,
            channels := if conn1.channels.contains roomId then conn1.channels
                        else conn1.channels ++ [roomId] },
          rooms := alSet (if (alGet rooms roomId).isSome then rooms
              else alSet rooms roomId ⟨[]⟩) roomId
            ⟨alSet ((alGet (if (alGet rooms roomId).isSome then rooms
                else alSet rooms roomId ⟨[]⟩) roomId).getD ⟨[]⟩).users sid
              ⟨sid, pcolor, pinstr, 0, []⟩⟩,
          roomColors := (getAvailableColor colors roomId rand).1,
          historicalPaths := hp } := by
  have h2ne : ∀ r2, r2 ≠ roomId → alGet (if (alGet rooms roomId).isSome then rooms
      else alSet rooms roomId ⟨[]⟩) r2 = alGet rooms r2 := by
    intro r2 hr2
    split
    · rfl
    · exact alGet_alSet_ne _ _ _ _ (Ne.symm hr2)
  have g3b : ∀ r rm, alGet (if (alGet rooms roomId).isSome then rooms
      else alSet rooms roomId ⟨[]⟩) r = some rm → ∀ q ∈ rm.users,
      q.2.trail.length ≤ 50 := by
    intro r rm hrm
    split at hrm
    · exact g3 r rm hrm
    · rcases alGet_alSet_cases hrm with ⟨heq, hv⟩ | ⟨hne, hrm⟩
      · rw [hv]
        intro q hq
        simp at hq
      · exact g3 r rm hrm
  refine ⟨?_, ?_, ?_, ?_, keysNodup_alSet _ _ h5⟩
  · intro r room hr
    rcases alGet_alSet_cases hr with ⟨heq, hv⟩ | ⟨hne, hr⟩
    · rw [hv]
      exact alSet_ne_nil _ _ _
    · rw [h2ne r hne] at hr
      exact g1 r room hr
  · intro r2 hs
    by_cases he : r2 = roomId
    · subst he
      rw [alGet_alSet_self]
      rfl
    · rw [alGet_getAvailableColor_ne _ _ _ _ he] at hs
      have hr2 : (alGet rooms r2).isSome := g2 r2 hs
      have h2s : (alGet (if (alGet rooms roomId).isSome then rooms
          else alSet rooms roomId ⟨[]⟩) r2).isSome := by
        split
        · exact hr2
        · exact isSome_alGet_alSet _ _ _ _ hr2
      exact isSome_alGet_alSet _ _ _ _ h2s
  · intro r room hr q hq
    rcases alGet_alSet_cases hr with ⟨heq, hv⟩ | ⟨hne, hr⟩
    · rw [hv] at hq
      rcases mem_alSet_cases hq with hq | hq
      · cases hrm : alGet (if (alGet rooms roomId).isSome then rooms
            else alSet rooms roomId ⟨[]⟩) roomId with
        | none =>
          rw [hrm] at hq
          simp at hq
        | some rm =>
          rw [hrm] at hq
          simp only [Option.getD_some] at hq
          exact g3b roomId rm hrm q hq
      · rw [hq]
        simp
    · rw [h2ne r hne] at hr
      exact g3 r room hr q hq
  · intro t c htc
    rcases alGet_alSet_cases htc with ⟨heq, hv⟩ | ⟨hne, htc⟩
    · rw [hv]
      dsimp only
      rw [hchan1]
      simp
    · exact h4 t c htc

theorem inv_handleJoinRoom (s : SState) (sid roomId : String) (rand : Nat)
    (h : Inv s) : Inv (handleJoinRoom s sid roomId rand).1 := by
  obtain ⟨h1, h2, h3, h4, h5⟩ := h
  unfold handleJoinRoom
  cases hc : alGet s.conns sid with
  | none => exact ⟨h1, h2, h3, h4, h5⟩
  | some conn =>
    dsimp only
    cases hcr : conn.currentRoom with
    | none =>
      dsimp only
      exact inv_joinRoom_core s.conns s.rooms s.roomColors s.historicalPaths sid
        roomId rand conn h1 h2 h3 h4 h5
        (by rw [h4 sid conn hc, hcr]) _ _
    | some prev =>
      dsimp only
      obtain ⟨g1, g2, g3⟩ :=
        removeUserFromRoom_preserves s.rooms s.roomColors prev sid h1 h2 h3
      have hch : conn.channels = [prev] := by
        have hx := h4 sid conn hc
        rw [hcr] at hx
        exact hx
      exact inv_joinRoom_core s.conns (removeUserFromRoom s.rooms s.roomColors prev sid).1
        (removeUserFromRoom s.rooms s.roomColors prev sid).2 s.historicalPaths sid
        roomId rand { conn with channels := conn.channels.filter (fun c => !(c == prev)) }
        g1 g2 g3 h4 h5 (by dsimp only; rw [hch]; simp) _ _

theorem inv_step (s : SState) (e : Event) (h : Inv s) : Inv (step s e).1 := by
  cases e with
  | connect sid => exact inv_handleConnect s sid h
  | joinRoom sid roomId rand => exact inv_handleJoinRoom s sid roomId rand h
  | move sid w l p => exact inv_handleMove s sid w l p h
  | selectEmit sid w l p txt =>
    show Inv (handleSelectEmit s sid w l p txt).1
    rw [handleSelectEmit_state s sid w l p txt]
    exact h
  | savePath sid path =>
    show Inv (handleSavePath s sid path).1
    rcases handleSavePath_state s sid path with hs | ⟨hp, hs⟩
    · rw [hs]
      exact h
    · rw [hs]
      exact inv_of_paths_update s hp h
  | saveSelectedWords sid ws =>
    show Inv (handleSaveSelectedWords s sid ws).1
    rcases handleSaveSelectedWords_state s sid ws with hs | ⟨hp, hs⟩
    · rw [hs]
      exact h
    · rw [hs]
      exact inv_of_paths_update s hp h
  | disconnect sid => exact inv_handleDisconnect s sid h

theorem inv_run (s : SState) (es : List Event) (h : Inv s) : Inv (run s es).1 := by
  induction es generalizing s with
  | nil => exact h
  | cons e es ih => exact ih (step s e).1 (inv_step s e h)

/-- Every state reachable from process start satisfies the invariant. -/
theorem inv_reachable (es : List Event) : Inv (run initState es).1 :=
  inv_run initState es inv_initState

/-! ### Claim C1 -/

set_option maxRecDepth 10000 in
/-- Claim C1 fails on the code: in `traceC1`, room A ends with 3
participants (well below the 11-color palette) yet c0 and c2 hold the same
color, because `join-room` never releases the switching user's color, so
c1's ten re-joins exhaust the palette and c2 is assigned by random fallback
from the full palette. -/
theorem c1_color_collision_in_small_room :
    roomCount (run initState traceC1).1 "A" = 3
    ∧ 3 ≤ colorPalette.length
    ∧ userColorIn (run initState traceC1).1 "A" "c0" = some "#970302"
    ∧ userColorIn (run initState traceC1).1 "A" "c2" = some "#970302" := by decide

/-! ### Claim C2 -/

set_option maxRecDepth 10000 in
/-- Claim C2 fails on the code: after `traceAB`, c1 holds color `#E679A6`
in room A; when c1 then sends `join-room` for room B, c1's Presence leaves
A but `#E679A6` stays in A's used-color set (the `join-room` handler calls
`removeUserFromRoom` but never `releaseColor`). -/
theorem c2_color_retained_after_room_switch :
    userColorIn (run initState traceAB).1 "A" "c1" = some "#E679A6"
    ∧ userColorIn (step (run initState traceAB).1 (Event.joinRoom "c1" "B" 0)).1 "A" "c1"
      = none
    ∧ usedColors (step (run initState traceAB).1 (Event.joinRoom "c1" "B" 0)).1 "A"
      = ["#970302", "#E679A6"] := by decide

/-! ### Claim C4 -/

set_option maxRecDepth 10000 in
/-- Claim C4 fails on the code in its `user-left` part: after `traceAB`
(c0 and c1 both in room A), c1's `join-room` for B removes c1's Presence
from A and creates a fresh one in B, but emits no `user-left` event at all,
so c0 is never notified. -/
theorem c4_room_switch_emits_no_user_left :
    roomCount (run initState traceAB).1 "A" = 2
    ∧ (step (run initState traceAB).1 (Event.joinRoom "c1" "B" 0)).2.filter isUserLeft = []
    ∧ userColorIn (step (run initState traceAB).1 (Event.joinRoom "c1" "B" 0)).1 "A" "c1"
      = none
    ∧ ((alGet (step (run initState traceAB).1 (Event.joinRoom "c1" "B" 0)).1.rooms "B").bind
        (fun room => alGet room.users "c1"))
      = some ⟨"c1", "#970302", "AMSynth", 0, []⟩ := by decide

/-! ### Claim C3 -/

/-- Claim C3: after any event sequence, every registered room has a
non-empty Presence map (so a room id is registered iff it has a live
Presence), used-color bookkeeping exists only for registered rooms, and
removing the last participant deletes the room entry and its used-color
set in the same `removeUserFromRoom` operation. -/
theorem c3_room_lifecycle (es : List Event) (r sid : String) :
    (∀ room, alGet (run initState es).1.rooms r = some room → room.users ≠ [])
    ∧ ((alGet (run initState es).1.roomColors r).isSome →
        (alGet (run initState es).1.rooms r).isSome)
    ∧ (∀ room, alGet (run initState es).1.rooms r = some room →
        (alErase room.users sid).isEmpty →
        alGet (removeUserFromRoom (run initState es).1.rooms
          (run initState es).1.roomColors r sid).1 r = none
        ∧ alGet (removeUserFromRoom (run initState es).1.rooms
            (run initState es).1.roomColors r sid).2 r = none) := by
  obtain ⟨h1, h2, h3, h4, h5⟩ := inv_reachable es
  refine ⟨h1 r, h2 r, ?_⟩
  intro room hroom hempty
  unfold removeUserFromRoom
  rw [hroom]
  dsimp only
  rw [if_pos hempty]
  exact ⟨alGet_alErase_self _ _, alGet_alErase_self _ _⟩

set_option maxRecDepth 10000 in
/-- Witness for C3 at a concrete input: after c0 joins room A, the room is
non-empty, its color bookkeeping implies registration, and removing c0
deletes both the room and its color set. -/
theorem c3_room_lifecycle_witness :
    ((⟨[("c0", ⟨"c0", "#970302", "AMSynth", 0, []⟩)]⟩ : Room).users ≠ [])
    ∧ (alGet (run initState [Event.connect "c0", Event.joinRoom "c0" "A" 0]).1.rooms
        "A").isSome
    ∧ alGet (removeUserFromRoom
        (run initState [Event.connect "c0", Event.joinRoom "c0" "A" 0]).1.rooms
        (run initState [Event.connect "c0", Event.joinRoom "c0" "A" 0]).1.roomColors
        "A" "c0").1 "A" = none
    ∧ alGet (removeUserFromRoom
        (run initState [Event.connect "c0", Event.joinRoom "c0" "A" 0]).1.rooms
        (run initState [Event.connect "c0", Event.joinRoom "c0" "A" 0]).1.roomColors
        "A" "c0").2 "A" = none :=
  ⟨(c3_room_lifecycle [Event.connect "c0", Event.joinRoom "c0" "A" 0] "A" "c0").1
      _ (by decide),
   (c3_room_lifecycle [Event.connect "c0", Event.joinRoom "c0" "A" 0] "A" "c0").2.1
      (by decide),
   ((c3_room_lifecycle [Event.connect "c0", Event.joinRoom "c0" "A" 0] "A" "c0").2.2
      ⟨[("c0", ⟨"c0", "#970302", "AMSynth", 0, []⟩)]⟩ (by decide) (by decide)).1,
   ((c3_room_lifecycle [Event.connect "c0", Event.joinRoom "c0" "A" 0] "A" "c0").2.2
      ⟨[("c0", ⟨"c0", "#970302", "AMSynth", 0, []⟩)]⟩ (by decide) (by decide)).2⟩

/-! ### Claim C6 -/

set_option maxRecDepth 10000 in
/-- Claim C6 fails on the code: a connection joining the previously absent
room `"dog"` is sent `room-users` containing its own freshly created
Presence, not the empty map (the handler adds the joiner to `room.users`
before emitting `room-users`). -/
theorem c6_room_users_not_empty :
    OutEvent.roomUsers "c0" []
      ∉ (run initState [Event.connect "c0", Event.joinRoom "c0" "dog" 0]).2
    ∧ OutEvent.roomUsers "c0" [("c0", ⟨"c0", "#970302", "AMSynth", 0, []⟩)]
      ∈ (run initState [Event.connect "c0", Event.joinRoom "c0" "dog" 0]).2 := by decide

/-- Claim C6, amended: when a connection joins a room with no current
participants — whether it was previously in no room or switches out of
another room — the `room-users` payload it receives is the singleton map
holding exactly its own freshly created Presence (position 0, empty trail). -/
theorem c6_room_users_singleton_on_empty_room_join (s : SState) (sid roomId : String)
    (rand : Nat) (c : ConnState) (hc : alGet s.conns sid = some c)
    (hempty : alGet s.rooms roomId = none) :
    ∃ color instrument,
      OutEvent.roomUsers sid [(sid, ⟨sid, color, instrument, 0, []⟩)]
        ∈ (step s (Event.joinRoom sid roomId rand)).2 := by
  cases hcr : c.currentRoom with
  | none =>
    refine ⟨(getAvailableColor s.roomColors roomId rand).2,
      (alGet colorInstrumentMap (getAvailableColor s.roomColors roomId rand).2).getD "",
      ?_⟩
    simp [step, handleJoinRoom, hc, hcr, hempty, alGet_alSet_self, alSet]
  | some prev =>
    have hempty1 : alGet (removeUserFromRoom s.rooms s.roomColors prev sid).1 roomId
        = none := by
      unfold removeUserFromRoom
      cases hl : alGet s.rooms prev with
      | none => exact hempty
      | some room0 =>
        have he : roomId ≠ prev := by
          intro h
          rw [h, hl] at hempty
          cases hempty
        dsimp only
        split
        · exact (alGet_alErase_ne _ _ _ (Ne.symm he)).trans hempty
        · exact (alGet_alSet_ne _ _ _ _ (Ne.symm he)).trans hempty
    refine ⟨(getAvailableColor (removeUserFromRoom s.rooms s.roomColors prev sid).2
        roomId rand).2,
      (alGet colorInstrumentMap (getAvailableColor
        (removeUserFromRoom s.rooms s.roomColors prev sid).2 roomId rand).2).getD "",
      ?_⟩
    simp [step, handleJoinRoom, hc, hcr, hempty1, alGet_alSet_self, alSet]

set_option maxRecDepth 10000 in
/-- Witness for the amended C6 at a concrete state: a connection currently
in room `"A"` switches into the absent room `"dog"`. -/
theorem c6_room_users_singleton_witness :
    ∃ color instrument,
      OutEvent.roomUsers "c0" [("c0", ⟨"c0", color, instrument, 0, []⟩)]
        ∈ (step (run initState [Event.connect "c0", Event.joinRoom "c0" "A" 0]).1
            (Event.joinRoom "c0" "dog" 7)).2 :=
  c6_room_users_singleton_on_empty_room_join _ "c0" "dog" 7
    ⟨some "A", some "#970302", ["A"]⟩ (by decide) (by decide)

/-! ### Claim C8 -/

/-- Claim C8: a `move` event from a connection with no current room, or
whose room or Presence record is absent, changes no server state and emits
no outbound event. -/
theorem c8_move_race_is_noop (s : SState) (sid : String) (c : ConnState)
    (w l p : Int) (hc : alGet s.conns sid = some c)
    (hbad : c.currentRoom = none
      ∨ (∃ r, c.currentRoom = some r ∧ alGet s.rooms r = none)
      ∨ (∃ r room, c.currentRoom = some r ∧ alGet s.rooms r = some room
          ∧ alGet room.users sid = none)) :
    step s (Event.move sid w l p) = (s, []) := by
  rcases hbad with h1 | ⟨r, h1, h2⟩ | ⟨r, room, h1, h2, h3⟩
  · simp [step, handleMove, hc, h1]
  · simp [step, handleMove, hc, h1, h2]
  · simp [step, handleMove, hc, h1, h2, h3]

set_option maxRecDepth 10000 in
/-- Witness for C8 at a concrete state: a connected socket that never
joined a room sends `move`. -/
theorem c8_move_race_witness :
    step (run initState [Event.connect "c0"]).1 (Event.move "c0" 1 2 3)
      = ((run initState [Event.connect "c0"]).1, []) :=
  c8_move_race_is_noop _ "c0" ⟨none, none, []⟩ 1 2 3 (by decide) (Or.inl rfl)

/-! ### Claim C5 -/

theorem run_moveEvents (moves : List (Int × Int × Int)) :
    ∀ (s : SState) (sid r : String) (c : ConnState) (room : Room) (user : Presence),
    alGet s.conns sid = some c → c.currentRoom = some r →
    alGet s.rooms r = some room → alGet room.users sid = some user →
    ∃ room2 user2,
      alGet (run s (moveEvents sid moves)).1.rooms r = some room2
      ∧ alGet room2.users sid = some user2
      ∧ user2.trail = List.foldl trailStep user.trail (moves.map Prod.fst) := by
  induction moves with
  | nil =>
    intro s sid r c room user hc hr hroom huser
    exact ⟨room, user, by simpa [moveEvents, run] using hroom, huser, rfl⟩
  | cons m ms ih =>
    intro s sid r c room user hc hr hroom huser
    have hstep : (step s (Event.move sid m.1 m.2.1 m.2.2)).1
        = { s with rooms := alSet s.rooms r ⟨alSet room.users sid
            { user with position := m.1, trail := trailStep user.trail m.1 }⟩ } := by
      show (handleMove s sid m.1 m.2.1 m.2.2).1 = _
      simp [handleMove, hc, hr, hroom, huser]
    have hrun : (run s (moveEvents sid (m :: ms))).1
        = (run (step s (Event.move sid m.1 m.2.1 m.2.2)).1 (moveEvents sid ms)).1 := rfl
    rw [hrun, hstep]
    obtain ⟨room2, user2, ha, hb, hcc⟩ := ih
      { s with rooms := alSet s.rooms r ⟨alSet room.users sid
          { user with position := m.1, trail := trailStep user.trail m.1 }⟩ }
      sid r c ⟨alSet room.users sid
          { user with position := m.1, trail := trailStep user.trail m.1 }⟩
      { user with position := m.1, trail := trailStep user.trail m.1 }
      hc hr (alGet_alSet_self _ _ _) (alGet_alSet_self _ _ _)
    refine ⟨room2, user2, ha, hb, ?_⟩
    rw [hcc]
    simp

/-- Claim C5: from any reachable state in which connection `sid` has a live
Presence in room `r`, after more than 50 consecutive `move` events from
`sid` the trail is exactly the last 50 wordIndex values sent, in order, and
has length exactly 50. -/
theorem c5_trail_bound (es : List Event) (sid r : String) (c : ConnState)
    (room : Room) (user : Presence) (moves : List (Int × Int × Int))
    (hc : alGet (run initState es).1.conns sid = some c)
    (hr : c.currentRoom = some r)
    (hroom : alGet (run initState es).1.rooms r = some room)
    (huser : alGet room.users sid = some user)
    (hN : 50 < moves.length) :
    ∃ room2 user2,
      alGet (run (run initState es).1 (moveEvents sid moves)).1.rooms r = some room2
      ∧ alGet room2.users sid = some user2
      ∧ user2.trail = (moves.map Prod.fst).drop (moves.length - 50)
      ∧ user2.trail.length = 50 := by
  obtain ⟨h1, h2, h3, h4, h5⟩ := inv_reachable es
  have htb : user.trail.length ≤ 50 := h3 r room hroom (sid, user) (alGet_mem huser)
  obtain ⟨room2, user2, ha, hb, hcc⟩ :=
    run_moveEvents moves (run initState es).1 sid r c room user hc hr hroom huser
  have htr : user2.trail = (moves.map Prod.fst).drop (moves.length - 50) := by
    rw [hcc, foldl_trailStep _ _ htb]
    rw [show user.trail.length + (moves.map Prod.fst).length - 50
        = user.trail.length + ((moves.map Prod.fst).length - 50) from by
      simp
      omega]
    rw [List.drop_append]
    simp
  refine ⟨room2, user2, ha, hb, htr, ?_⟩
  rw [htr]
  simp
  omega

set_option maxRecDepth 10000 in
/-- Witness for C5 at a concrete input: c0 in room A sends 51 moves with
wordIndex values 0..50. -/
theorem c5_trail_bound_witness :
    ∃ room2 user2,
      alGet (run (run initState [Event.connect "c0", Event.joinRoom "c0" "A" 0]).1
        (moveEvents "c0" ((List.range 51).map (fun i => ((i : Int), 0, 0))))).1.rooms "A"
        = some room2
      ∧ alGet room2.users "c0" = some user2
      ∧ user2.trail = (((List.range 51).map (fun i => ((i : Int), 0, 0))).map
          Prod.fst).drop (((List.range 51).map (fun i => ((i : Int), 0, 0))).length - 50)
      ∧ user2.trail.length = 50 :=
  c5_trail_bound [Event.connect "c0", Event.joinRoom "c0" "A" 0] "c0" "A"
    ⟨some "A", some "#970302", ["A"]⟩ ⟨[("c0", ⟨"c0", "#970302", "AMSynth", 0, []⟩)]⟩
    ⟨"c0", "#970302", "AMSynth", 0, []⟩
    ((List.range 51).map (fun i => ((i : Int), 0, 0)))
    (by decide) rfl (by decide) (by decide) (by decide)

/-! ### Claim C7 -/

/-- Claim C7: from any state where connection C has a live Presence in
room R, after C saves a path, disconnects, and a connection Cp then
connects and joins R, the `historical-paths` event emitted to Cp contains
C's saved path under C's original id. -/
theorem c7_history_durability (s : SState) (C Cp R : String) (p : List Int)
    (rand : Nat) (c : ConnState) (room : Room) (user : Presence)
    (hc : alGet s.conns C = some c) (hr : c.currentRoom = some R)
    (hroom : alGet s.rooms R = some room) (huser : alGet room.users C = some user) :
    ∃ arr, OutEvent.historicalPaths Cp arr
        ∈ (run s [Event.savePath C p, Event.disconnect C, Event.connect Cp,
                  Event.joinRoom Cp R rand]).2
      ∧ (C, user.color, p) ∈ arr := by
  have h1 : (step s (Event.savePath C p)).1.historicalPaths
      = alSet s.historicalPaths R
        (alSet ((alGet s.historicalPaths R).getD []) C ⟨user.color, p, none⟩)
      ∧ (step s (Event.savePath C p)).1.conns = s.conns := by
    show (handleSavePath s C p).1.historicalPaths = _
      ∧ (handleSavePath s C p).1.conns = s.conns
    unfold handleSavePath
    rw [hc]
    dsimp only
    rw [hr]
    dsimp only
    rw [hroom]
    dsimp only
    rw [huser]
    dsimp only
    exact ⟨rfl, rfl⟩
  have h2 : (step (step s (Event.savePath C p)).1 (Event.disconnect C)).1.historicalPaths
      = (step s (Event.savePath C p)).1.historicalPaths
      ∧ (step (step s (Event.savePath C p)).1 (Event.disconnect C)).1.conns
      = alErase (step s (Event.savePath C p)).1.conns C := by
    show (handleDisconnect _ C).1.historicalPaths = _
      ∧ (handleDisconnect _ C).1.conns = _
    unfold handleDisconnect
    rw [show alGet (step s (Event.savePath C p)).1.conns C = some c from by
      rw [h1.2]
      exact hc]
    dsimp only
    rw [hr]
    dsimp only
    cases c.userColor <;> exact ⟨rfl, rfl⟩
  have hc3 : alGet (step (step (step s (Event.savePath C p)).1
      (Event.disconnect C)).1 (Event.connect Cp)).1.conns Cp
      = some ⟨none, none, []⟩ := by
    show alGet (alSet (step (step s (Event.savePath C p)).1
      (Event.disconnect C)).1.conns Cp ⟨none, none, []⟩) Cp = _
    exact alGet_alSet_self _ _ _
  have hhp3 : alGet (step (step (step s (Event.savePath C p)).1
      (Event.disconnect C)).1 (Event.connect Cp)).1.historicalPaths R
      = some (alSet ((alGet s.historicalPaths R).getD []) C ⟨user.color, p, none⟩) := by
    show alGet (step (step s (Event.savePath C p)).1
      (Event.disconnect C)).1.historicalPaths R = _
    rw [h2.1, h1.1]
    exact alGet_alSet_self _ _ _
  have h4mem : OutEvent.historicalPaths Cp
      ((alSet ((alGet s.historicalPaths R).getD []) C
        (⟨user.color, p, none⟩ : HistoryRecord)).map
          (fun q => (q.1, q.2.color, q.2.path)))
      ∈ (step (step (step (step s (Event.savePath C p)).1
          (Event.disconnect C)).1 (Event.connect Cp)).1 (Event.joinRoom Cp R rand)).2 := by
    show _ ∈ (handleJoinRoom _ Cp R rand).2
    unfold handleJoinRoom
    rw [hc3]
    dsimp only
    rw [hhp3]
    dsimp only
    simp
  refine ⟨(alSet ((alGet s.historicalPaths R).getD []) C
      (⟨user.color, p, none⟩ : HistoryRecord)).map (fun q => (q.1, q.2.color, q.2.path)),
    ?_, List.mem_map_of_mem _ (mem_alSet_self _ _ _)⟩
  show OutEvent.historicalPaths Cp _
      ∈ (step s (Event.savePath C p)).2
        ++ ((step (step s (Event.savePath C p)).1 (Event.disconnect C)).2
        ++ ((step (step (step s (Event.savePath C p)).1 (Event.disconnect C)).1
              (Event.connect Cp)).2
        ++ ((step (step (step (step s (Event.savePath C p)).1
              (Event.disconnect C)).1 (Event.connect Cp)).1
              (Event.joinRoom Cp R rand)).2 ++ [])))
  refine List.mem_append.mpr (Or.inr ?_)
  refine List.mem_append.mpr (Or.inr ?_)
  refine List.mem_append.mpr (Or.inr ?_)
  exact List.mem_append.mpr (Or.inl h4mem)

set_option maxRecDepth 10000 in
/-- Witness for C7 at a concrete input: x joins room R, saves path [1,2,3],
disconnects; y then joins R and receives x's path. -/
theorem c7_history_durability_witness :
    ∃ arr, OutEvent.historicalPaths "y" arr
        ∈ (run (run initState [Event.connect "x", Event.joinRoom "x" "R" 0]).1
            [Event.savePath "x" [1, 2, 3], Event.disconnect "x", Event.connect "y",
             Event.joinRoom "y" "R" 0]).2
      ∧ ("x", "#970302", ([1, 2, 3] : List Int)) ∈ arr :=
  c7_history_durability (run initState [Event.connect "x", Event.joinRoom "x" "R" 0]).1
    "x" "y" "R" [1, 2, 3] 0 ⟨some "R", some "#970302", ["R"]⟩
    ⟨[("x", ⟨"x", "#970302", "AMSynth", 0, []⟩)]⟩ ⟨"x", "#970302", "AMSynth", 0, []⟩
    (by decide) rfl (by decide) (by decide)

/-! ### Claim C9 -/

theorem mem_broadcastTargets {conns : List (String × ConnState)}
    {sender roomId t : String} (h : t ∈ broadcastTargets conns sender roomId) :
    t ≠ sender ∧ ∃ cs, (t, cs) ∈ conns ∧ cs.channels.contains roomId := by
  unfold broadcastTargets at h
  rcases List.mem_map.mp h with ⟨p, hp, hpt⟩
  rcases List.mem_filter.mp hp with ⟨hmem, hcond⟩
  rw [Bool.and_eq_true] at hcond
  obtain ⟨hc1, hc2⟩ := hcond
  subst hpt
  simp only [Bool.not_eq_eq_eq_not, Bool.not_true, beq_eq_false_iff_ne] at hc1
  exact ⟨hc1, p.2, hmem, hc2⟩

/-- Claim C9: in any reachable state, the `user-moved` / `select-receive`
emissions produced by a `move` / `select-emit` from a connection whose
current room is A are addressed only to connections other than the sender
whose current room is also A. -/
theorem c9_room_isolation (es : List Event) (sid A : String) (c : ConnState)
    (w l p : Int) (txt : String)
    (hc : alGet (run initState es).1.conns sid = some c)
    (hA : c.currentRoom = some A) :
    (∀ oe ∈ (step (run initState es).1 (Event.move sid w l p)).2,
      outTarget oe ≠ sid
      ∧ ∃ c2, alGet (run initState es).1.conns (outTarget oe) = some c2
          ∧ c2.currentRoom = some A)
    ∧ (∀ oe ∈ (step (run initState es).1 (Event.selectEmit sid w l p txt)).2,
      outTarget oe ≠ sid
      ∧ ∃ c2, alGet (run initState es).1.conns (outTarget oe) = some c2
          ∧ c2.currentRoom = some A) := by
  obtain ⟨h1, h2, h3, h4, h5⟩ := inv_reachable es
  have key : ∀ t, t ∈ broadcastTargets (run initState es).1.conns sid A →
      t ≠ sid ∧ ∃ c2, alGet (run initState es).1.conns t = some c2
        ∧ c2.currentRoom = some A := by
    intro t ht
    obtain ⟨hts, cs, hmem, hcont⟩ := mem_broadcastTargets ht
    have hget := alGet_of_mem_keysNodup h5 hmem
    have hch := h4 t cs hget
    cases hcur : cs.currentRoom with
    | none =>
      rw [hcur] at hch
      rw [hch] at hcont
      simp at hcont
    | some B =>
      rw [hcur] at hch
      rw [hch] at hcont
      simp at hcont
      subst hcont
      exact ⟨hts, cs, hget, hcur⟩
  constructor
  · intro oe hoe
    revert hoe
    show oe ∈ (handleMove (run initState es).1 sid w l p).2 → _
    unfold handleMove
    rw [hc]
    dsimp only
    rw [hA]
    dsimp only
    cases hroom : alGet (run initState es).1.rooms A with
    | none =>
      intro hoe
      simp at hoe
    | some room =>
      dsimp only
      cases huser : alGet room.users sid with
      | none =>
        intro hoe
        simp at hoe
      | some user =>
        dsimp only
        intro hoe
        rcases List.mem_map.mp hoe with ⟨t, ht, rfl⟩
        simpa [outTarget] using key t ht
  · intro oe hoe
    revert hoe
    show oe ∈ (handleSelectEmit (run initState es).1 sid w l p txt).2 → _
    unfold handleSelectEmit
    rw [hc]
    dsimp only
    rw [hA]
    dsimp only
    cases hroom : alGet (run initState es).1.rooms A with
    | none =>
      intro hoe
      simp at hoe
    | some room =>
      dsimp only
      cases huser : alGet room.users sid with
      | none =>
        intro hoe
        simp at hoe
      | some user =>
        dsimp only
        intro hoe
        rcases List.mem_map.mp hoe with ⟨t, ht, rfl⟩
        simpa [outTarget] using key t ht

set_option maxRecDepth 10000 in
/-- Witness for C9 at a concrete input: c0 and c1 in room A, c0 sends a
`move` and a `select-emit`. -/
theorem c9_room_isolation_witness :
    (∀ oe ∈ (step (run initState traceAB).1 (Event.move "c0" 5 0 0)).2,
      outTarget oe ≠ "c0"
      ∧ ∃ c2, alGet (run initState traceAB).1.conns (outTarget oe) = some c2
          ∧ c2.currentRoom = some "A")
    ∧ (∀ oe ∈ (step (run initState traceAB).1 (Event.selectEmit "c0" 5 0 0 "t")).2,
      outTarget oe ≠ "c0"
      ∧ ∃ c2, alGet (run initState traceAB).1.conns (outTarget oe) = some c2
          ∧ c2.currentRoom = some "A") :=
  c9_room_isolation traceAB "c0" "A" ⟨some "A", some "#970302", ["A"]⟩ 5 0 0 "t"
    (by decide) rfl

/-! ### Claim C10 -/

/-- Claim C10: with a history record already holding selectedWords,
`save-path` replaces the whole record with `{color, path}` (selectedWords
lost), while `save-selected-words` keeps the stored path and color and
updates only selectedWords. -/
theorem c10_history_upsert_frame (s : SState) (sid R : String) (c : ConnState)
    (room : Room) (user : Presence) (rp : List (String × HistoryRecord))
    (rec0 : HistoryRecord) (w0 : List String) (pnew : List Int) (wnew : List String)
    (hc : alGet s.conns sid = some c) (hr : c.currentRoom = some R)
    (hroom : alGet s.rooms R = some room) (huser : alGet room.users sid = some user)
    (hrp : alGet s.historicalPaths R = some rp) (hrec : alGet rp sid = some rec0)
    (hsel : rec0.selectedWords = some w0) :
    (∃ rp2, alGet (step s (Event.savePath sid pnew)).1.historicalPaths R = some rp2
       ∧ alGet rp2 sid = some ⟨user.color, pnew, none⟩)
    ∧ (∃ rp3,
        alGet (step s (Event.saveSelectedWords sid wnew)).1.historicalPaths R = some rp3
        ∧ alGet rp3 sid = some ⟨rec0.color, rec0.path, some wnew⟩) := by
  refine ⟨⟨alSet rp sid ⟨user.color, pnew, none⟩, ?_, alGet_alSet_self ..⟩,
          ⟨alSet rp sid ⟨rec0.color, rec0.path, some wnew⟩, ?_, alGet_alSet_self ..⟩⟩
  · simp [step, handleSavePath, hc, hr, hroom, huser, hrp, alGet_alSet_self]
  · simp [step, handleSaveSelectedWords, hc, hr, hroom, huser, hrp, hrec,
      alGet_alSet_self]

set_option maxRecDepth 10000 in
/-- Witness for C10 at a concrete state: `"x"` in room `"R"` saved selected
words `["a"]`, then saves a path / saves new selected words. -/
theorem c10_history_upsert_witness :
    (∃ rp2,
      alGet (step (run initState [Event.connect "x", Event.joinRoom "x" "R" 0,
          Event.saveSelectedWords "x" ["a"]]).1
          (Event.savePath "x" [1, 2])).1.historicalPaths "R" = some rp2
      ∧ alGet rp2 "x" = some ⟨"#970302", [1, 2], none⟩)
    ∧ (∃ rp3,
      alGet (step (run initState [Event.connect "x", Event.joinRoom "x" "R" 0,
          Event.saveSelectedWords "x" ["a"]]).1
          (Event.saveSelectedWords "x" ["b"])).1.historicalPaths "R" = some rp3
      ∧ alGet rp3 "x" = some ⟨"#970302", [], some ["b"]⟩) :=
  c10_history_upsert_frame _ "x" "R" ⟨some "R", some "#970302", ["R"]⟩
    ⟨[("x", ⟨"x", "#970302", "AMSynth", 0, []⟩)]⟩ ⟨"x", "#970302", "AMSynth", 0, []⟩
    [("x", ⟨"#970302", [], some ["a"]⟩)] ⟨"#970302", [], some ["a"]⟩ ["a"] [1, 2] ["b"]
    (by decide) rfl (by decide) (by decide) (by decide) (by decide) rfl

end WikiPath
